import Mathlib

/-!
Verification development for the `simple-module-logger` library
(`src/logger.ts`, `src/common.ts`, `src/color.ts`, `src/duration.ts`).

The embedding models JavaScript runtime values as an explicit heap (so
reference identity and cyclic object graphs are representable), and the
logger as pure functions from configuration, heap and call arguments to a
list of emitted events (stream writes and process exits).  Host-provided
behaviour (`new Date().toISOString()`, `new Error().stack`, `util.inspect`)
is injected through a `Host` record, mirroring how the spec treats those as
external collaborators.  `JSON.stringify` with a replacer is modelled after
the ECMA-262 `SerializeJSONProperty` / `SerializeJSONObject` /
`SerializeJSONArray` algorithms, including the engine's own cycle check
(which throws a `TypeError`) and the replacer's `ancestors` bookkeeping
from `Logger.stringifyJsonRecord`.
-/

namespace SML

/-- `LOG_LEVELS` from `src/common.ts`: ordered enumeration of severities. -/
inductive Level where
  | debug
  | info
  | warn
  | error
  | fatal
deriving DecidableEq, Repr

/-- Position of a level in `LOG_LEVELS` (`LOG_LEVELS.indexOf` in the source). -/
def rank : Level → Nat
  | Level.debug => 0
  | Level.info => 1
  | Level.warn => 2
  | Level.error => 3
  | Level.fatal => 4

/-- The level names, in source order (`LOG_LEVELS` as strings). -/
def LOG_LEVEL_NAMES : List String := ["debug", "info", "warn", "error", "fatal"]

/-- Lower-case name of a level, as used in JSON records. -/
def levelName : Level → String
  | Level.debug => "debug"
  | Level.info => "info"
  | Level.warn => "warn"
  | Level.error => "error"
  | Level.fatal => "fatal"

/-- Upper-case level tag used in the text prefix. -/
def levelTagText : Level → String
  | Level.debug => "[DEBUG]"
  | Level.info => "[INFO]"
  | Level.warn => "[WARN]"
  | Level.error => "[ERROR]"
  | Level.fatal => "[FATAL]"

/-- `OUTPUT_FORMATS` from `src/logger.ts`. -/
inductive OutputFormat where
  | text
  | jsonl
deriving DecidableEq, Repr

/-- JSON-safe primitive values. -/
inductive JPrim where
  | jstr (s : String)
  | jint (n : Int)
  | jbool (b : Bool)
  | jnull
deriving DecidableEq, Repr

/-- A JavaScript runtime value: a primitive, `undefined`, or a reference to
a heap object.  Reference identity is the heap index. -/
inductive JVal where
  | prim (p : JPrim)
  | undef
  | vref (r : Nat)
deriving DecidableEq, Repr

/-- An `Error` object: `name`, `message` (possibly `undefined`), `stack`
(possibly `undefined`), `cause` (any value; `undefined` when absent). -/
structure ErrObj where
  name : String
  msg : Option String
  stack : Option String
  cause : JVal
deriving DecidableEq, Repr

/-- A heap object: a plain object (ordered fields), an array, or an `Error`. -/
inductive HObj where
  | obj (fields : List (String × JVal))
  | arr (elems : List JVal)
  | herr (e : ErrObj)
deriving DecidableEq, Repr

/-- The heap: object `r` is `h[r]?`. -/
abbrev Heap := List HObj

/-- The `ErrObj` at reference `r`, when `r` points at an `Error`. -/
def errAt (h : Heap) (r : Nat) : Option ErrObj :=
  match h[r]? with
  | some (HObj.herr e) => some e
  | _ => none

/-- `value instanceof Error`: `some r` when `v` is a reference to an `Error`. -/
def asErrRef (h : Heap) (v : JVal) : Option Nat :=
  match v with
  | JVal.vref r => match h[r]? with
    | some (HObj.herr _) => some r
    | _ => none
  | _ => none

/-- `formatErrorMessage` from `src/logger.ts`: the message when defined and
non-empty, otherwise `name || "Error"`. -/
def formatErrorMessage (e : ErrObj) : String :=
  match e.msg with
  | some m => if m ≠ "" then m else (if e.name = "" then "Error" else e.name)
  | none => if e.name = "" then "Error" else e.name

/-- The `cause` field of the error at `r` (`undefined` when `r` is not an
error reference). -/
def causeOf (h : Heap) (r : Nat) : JVal :=
  match errAt h r with
  | some e => e.cause
  | none => JVal.undef

/-- The loop body of `getErrorCauses`: `current` starts at `error.cause` and
the walk continues while `current instanceof Error`, stopping on a
previously `seen` reference.  `fuel` only bounds the recursion; the
stability theorem for claim C2 shows `h.length + 1` is always enough. -/
def causesLoop (h : Heap) : Nat → List Nat → JVal → List Nat
  | 0, _, _ => []
  | Nat.succ fuel, seen, cur =>
    match asErrRef h cur with
    | none => []
    | some r =>
      if r ∈ seen then []
      else r :: causesLoop h fuel (r :: seen) (causeOf h r)

/-- `getErrorCauses` from `src/logger.ts`, for the error at reference `e`. -/
def getErrorCauses (h : Heap) (e : Nat) : List Nat :=
  causesLoop h (h.length + 1) [e] (causeOf h e)

/-- Split a character list at every newline (`String.prototype.split("\n")`
semantics: empty parts are kept, the empty string yields one empty part). -/
def splitLinesL : List Char → List (List Char)
  | [] => [[]]
  | c :: cs =>
    if c = '\n' then [] :: splitLinesL cs
    else
      match splitLinesL cs with
      | [] => [[c]]
      | l :: ls => (c :: l) :: ls

/-- `s.split("\n")`. -/
def splitLines (s : String) : List String :=
  (splitLinesL s.toList).map (fun l => String.mk l)

/-- `line.trim() !== ""`: the line contains a non-whitespace character. -/
def nonBlank (s : String) : Bool :=
  s.toList.any (fun c => !c.isWhitespace)

/-- `captureNativeStack` from `src/logger.ts`: the raw `new Error().stack`
string with its first line (the `"Error"` header) removed. -/
def captureNativeStack (raw : String) : String :=
  String.intercalate "\n" ((splitLines raw).drop 1)

/-! ## JSON serialization (`Logger.stringifyJsonRecord`)

`JSON.stringify(record, replacer)` is modelled after ECMA-262.  Values that
flow through serialization are `SVal`s: primitives, `undefined`, references
into the user heap, and *fresh* containers (the record object itself, the
`args`/`errors` arrays, and the objects produced by `serializeError`
substitution).  Every fresh container carries a distinct identity number so
that reference-identity tests (`ancestors.includes(value)`, the engine's
internal stack check) are exact. -/

/-- A value as seen by `JSON.stringify`. -/
inductive SVal where
  | prim (p : JPrim)
  | undef
  | ref (r : Nat)
  | fobj (id : Nat) (fields : List (String × SVal))
  | farr (id : Nat) (elems : List SVal)

/-- Container identity: a user-heap reference or a fresh object id. -/
inductive CId where
  | href (r : Nat)
  | fid (n : Nat)
deriving DecidableEq, Repr

/-- Serializer failure: the engine's `TypeError` on a circular structure, or
model fuel exhaustion (never reached with sufficient fuel). -/
inductive SErr where
  | cyclic
  | fuel
deriving DecidableEq, Repr

/-- Serializer state: the replacer's `ancestors` array (top first), the
engine's internal serialization stack (top first), and the next fresh
identity for objects allocated by `serializeError` substitution. -/
structure SState where
  anc : List CId
  stk : List CId
  next : Nat
deriving DecidableEq, Repr

/-- Embed a runtime value into the serializer's value domain. -/
def embed : JVal → SVal
  | JVal.prim p => SVal.prim p
  | JVal.undef => SVal.undef
  | JVal.vref r => SVal.ref r

/-- Escape one character for a JSON string literal. -/
def escC (c : Char) : String :=
  if c = '"' then "\\\""
  else if c = '\\' then "\\\\"
  else if c = '\n' then "\\n"
  else if c = '\r' then "\\r"
  else if c = '\t' then "\\t"
  else String.singleton c

/-- `QuoteJSONString`, restricted to the characters the repository uses. -/
def quoteJson (s : String) : String :=
  "\"" ++ String.join (s.toList.map escC) ++ "\""

/-- Serialization of a primitive. -/
def primText : JPrim → String
  | JPrim.jstr s => quoteJson s
  | JPrim.jint n => toString n
  | JPrim.jbool true => "true"
  | JPrim.jbool false => "false"
  | JPrim.jnull => "null"

/-- A single entry of the `causes` array built by `Logger.serializeError`:
`{name, message, stack}` with `stack` present even when `undefined`. -/
def causeEntry (h : Heap) (base : Nat) (idx : Nat) (c : Nat) : SVal :=
  match errAt h c with
  | some e =>
    SVal.fobj (base + idx)
      [("name", SVal.prim (JPrim.jstr (if e.name = "" then "Error" else e.name))),
       ("message", SVal.prim (JPrim.jstr (formatErrorMessage e))),
       ("stack", match e.stack with
         | some s => SVal.prim (JPrim.jstr s)
         | none => SVal.undef)]
  | none => SVal.fobj (base + idx) []

/-- `Logger.serializeError`, allocating fresh identities from `n`: the
details object, then (when the cause chain is non-empty) the `causes`
array and its entries.  Returns the tree and the next free identity. -/
def serializeErrorS (h : Heap) (e : ErrObj) (r : Nat) (n : Nat) : SVal × Nat :=
  let base : List (String × SVal) :=
    [("name", SVal.prim (JPrim.jstr (if e.name = "" then "Error" else e.name))),
     ("message", SVal.prim (JPrim.jstr (formatErrorMessage e)))]
  let stackF : List (String × SVal) :=
    match e.stack with
    | some s => if s = "" then [] else [("stack", SVal.prim (JPrim.jstr s))]
    | none => []
  let causes := getErrorCauses h r
  if causes.isEmpty then (SVal.fobj n (base ++ stackF), n + 1)
  else
    let entries := causes.enum.map (fun p => causeEntry h (n + 2) p.1 p.2)
    (SVal.fobj n (base ++ stackF ++ [("causes", SVal.farr (n + 1) entries)]),
     n + 2 + causes.length)

/-- The replacer's pop loop: `ancestors` is kept top-first, so popping until
`ancestors[ancestors.length - 1] === this` pops from the head until the
head is the holder (or the list is empty). -/
def popUntil (holder : CId) : List CId → List CId
  | [] => []
  | a :: rest => if a = holder then a :: rest else popUntil holder rest

/-- The object branch of the replacer: pop stale ancestors, replace a
reference to an open ancestor with the `"[Circular]"` marker, otherwise
push the container. -/
def containerMark (holder : CId) (cid : CId) (v : SVal) (st : SState) :
    SVal × SState :=
  let anc := popUntil holder st.anc
  if cid ∈ anc then (SVal.prim (JPrim.jstr "[Circular]"), { st with anc := anc })
  else (v, { st with anc := cid :: anc })

/-- One invocation of the replacer from `Logger.stringifyJsonRecord`:
`Error` values are substituted by `serializeError` (before any ancestor
bookkeeping), `undefined` becomes `null`, containers run the ancestors
logic, and primitives pass through.  (The `bigint` / `function` / `symbol`
branches concern host value kinds outside this model's value universe.) -/
def replacerStep (h : Heap) (holder : CId) (v : SVal) (st : SState) :
    SVal × SState :=
  match v with
  | SVal.ref r =>
    match h[r]? with
    | some (HObj.herr e) =>
      let p := serializeErrorS h e r st.next
      (p.1, { st with next := p.2 })
    | some _ => containerMark holder (CId.href r) v st
    | none => (SVal.prim JPrim.jnull, st)
  | SVal.undef => (SVal.prim JPrim.jnull, st)
  | SVal.fobj id _ => containerMark holder (CId.fid id) v st
  | SVal.farr id _ => containerMark holder (CId.fid id) v st
  | SVal.prim p => (SVal.prim p, st)

/-- Serialize an object's members in order, threading the state; `rec` is
the property serializer and `holder` the object being serialized. -/
def serFieldsGo (rec : CId → SVal → SState → Except SErr (String × SState))
    (holder : CId) :
    List (String × SVal) → SState → Except SErr (List String × SState)
  | [], st => Except.ok ([], st)
  | (k, v) :: rest, st => do
    let p ← rec holder v st
    let q ← serFieldsGo rec holder rest p.2
    Except.ok ((quoteJson k ++ ":" ++ p.1) :: q.1, q.2)

/-- Serialize an array's elements in order, threading the state. -/
def serElemsGo (rec : CId → SVal → SState → Except SErr (String × SState))
    (holder : CId) : List SVal → SState → Except SErr (List String × SState)
  | [], st => Except.ok ([], st)
  | v :: rest, st => do
    let p ← rec holder v st
    let q ← serElemsGo rec holder rest p.2
    Except.ok (p.1 :: q.1, q.2)

/-- `SerializeJSONObject`: throw on a value already on the engine stack,
push it, serialize the members in order threading the state, pop it. -/
def encObj (rec : CId → SVal → SState → Except SErr (String × SState))
    (cid : CId) (fs : List (String × SVal)) (st : SState) :
    Except SErr (String × SState) :=
  if cid ∈ st.stk then Except.error SErr.cyclic
  else do
    let st1 := { st with stk := cid :: st.stk }
    let p ← serFieldsGo rec cid fs st1
    Except.ok ("\x7b" ++ String.intercalate "," p.1 ++ "\x7d",
      { p.2 with stk := st.stk })

/-- `SerializeJSONArray`, analogously. -/
def encArr (rec : CId → SVal → SState → Except SErr (String × SState))
    (cid : CId) (es : List SVal) (st : SState) :
    Except SErr (String × SState) :=
  if cid ∈ st.stk then Except.error SErr.cyclic
  else do
    let st1 := { st with stk := cid :: st.stk }
    let p ← serElemsGo rec cid es st1
    Except.ok ("[" ++ String.intercalate "," p.1 ++ "]", { p.2 with stk := st.stk })

/-- `SerializeJSONProperty`: apply the replacer, then encode the resulting
value; containers recurse with this property's value as the new holder.
`fuel` only bounds nesting depth (each recursive call decrements it). -/
def serProp (h : Heap) : Nat → CId → SVal → SState → Except SErr (String × SState)
  | 0, _, _, _ => Except.error SErr.fuel
  | Nat.succ fuel, holder, v, st =>
    let rp := replacerStep h holder v st
    match rp.1 with
    | SVal.prim p => Except.ok (primText p, rp.2)
    | SVal.undef => Except.ok ("null", rp.2)
    | SVal.ref r =>
      match h[r]? with
      | some (HObj.obj fs) =>
        encObj (serProp h fuel) (CId.href r) (fs.map (fun kv => (kv.1, embed kv.2))) rp.2
      | some (HObj.arr es) =>
        encArr (serProp h fuel) (CId.href r) (es.map embed) rp.2
      | some (HObj.herr _) => Except.ok ("null", rp.2)
      | none => Except.ok ("null", rp.2)
    | SVal.fobj id fs => encObj (serProp h fuel) (CId.fid id) fs rp.2
    | SVal.farr id es => encArr (serProp h fuel) (CId.fid id) es rp.2

/-- `JSON.stringify(record, replacer)`: the root call serializes the record
object (identity `fid 1`) with the wrapper object (`fid 0`) as holder and
empty ancestor/stack state; `n0` is the first identity free for
substitution-allocated objects. -/
def stringifyJsonRecord (h : Heap) (fuel : Nat)
    (record : List (String × SVal)) (n0 : Nat) : Except SErr String :=
  (serProp h fuel (CId.fid 0) (SVal.fobj 1 record) ⟨[], [], n0⟩).map Prod.fst

/-! ## The Logger façade -/

/-- ANSI codes from `src/color.ts` used by the logger. -/
def colorReset : String := "\x1b[0m"

/-- `COLORS.dim`, for the timestamp. -/
def colorDim : String := "\x1b[2m"

/-- `COLORS.magenta`, the fallback module color. -/
def colorMagenta : String := "\x1b[35m"

/-- `LEVEL_COLORS` from `src/color.ts`. -/
def levelColor : Level → String
  | Level.debug => "\x1b[90m"
  | Level.info => "\x1b[36m"
  | Level.warn => "\x1b[33m"
  | Level.error => "\x1b[31m"
  | Level.fatal => "\x1b[91m"

/-- Logger configuration and derived state (`Logger`'s private fields). -/
structure LoggerState where
  logLevel : Level
  module : String
  outputFormat : OutputFormat
  jsonlSplit : Bool
  useColor : Bool
  useTruecolor : Bool
  moduleColor : String
deriving DecidableEq, Repr

/-- Host-provided inputs of one log call: `new Date().toISOString()`, the
raw `new Error().stack` captured inside the call, and `util.inspect`
(taking the color flag, the heap and the value). -/
structure Host where
  timestamp : String
  stack : String
  inspect : Bool → Heap → JVal → String

/-- The optional `JsonLogContext` passed by `Timer` via `logWithContext`. -/
structure JsonCtx where
  duration : Option String := none
  durationMs : Option Int := none
deriving DecidableEq, Repr

/-- Output stream selector. -/
inductive StreamId where
  | stdoutS
  | stderrS
deriving DecidableEq, Repr

/-- An observable effect of a log call: a stream write of one line
(the written chunk is the line followed by a newline), or `process.exit`. -/
inductive Event where
  | line (s : StreamId) (text : String)
  | exit (code : Nat)
deriving DecidableEq, Repr

/-- Whether an event is a stream write. -/
def Event.isLine : Event → Prop
  | Event.line _ _ => True
  | Event.exit _ => False

instance : DecidablePred Event.isLine := fun e => by
  cases e <;> simp [Event.isLine] <;> infer_instance

/-- `STDOUT_LEVELS` from `src/logger.ts`. -/
def STDOUT_LEVELS : List Level := [Level.debug, Level.info]

/-- `Logger.writeLine`: stream routing.  In `jsonl` mode without split
streams everything goes to `stdout`; otherwise `debug`/`info` go to
`stdout` and the rest to `stderr`. -/
def writeLine (st : LoggerState) (level : Level) (text : String) : Event :=
  let useUnified := st.outputFormat = OutputFormat.jsonl ∧ st.jsonlSplit = false
  if useUnified then Event.line StreamId.stdoutS text
  else if level ∈ STDOUT_LEVELS then Event.line StreamId.stdoutS text
  else Event.line StreamId.stderrS text

/-- `Logger.colorize`. -/
def colorize (st : LoggerState) (text color : String) : String :=
  if st.useColor then color ++ text ++ colorReset else text

/-- Right-pad with spaces to width `n` (`String.prototype.padEnd`). -/
def padEnd (s : String) (n : Nat) : String :=
  s ++ String.mk (List.replicate (n - s.length) ' ')

/-- `Logger.buildPrefix`: colorized timestamp, two spaces, colorized level
tag padded to 7, two spaces, optional colorized module tag plus a space. -/
def prefixText (st : LoggerState) (host : Host) (level : Level) : String :=
  colorize st host.timestamp colorDim ++ "  " ++
    colorize st (padEnd (levelTagText level) 7) (levelColor level) ++ "  " ++
    (if st.module ≠ "" then colorize st ("[" ++ st.module ++ "]") st.moduleColor ++ " "
     else "")

/-- `Logger.formatValue`: strings pass through, errors reduce to their
display message, everything else goes through `util.inspect`. -/
def formatValue (st : LoggerState) (host : Host) (h : Heap) (v : JVal) : String :=
  match v with
  | JVal.prim (JPrim.jstr s) => s
  | _ =>
    match asErrRef h v with
    | some r =>
      match errAt h r with
      | some e => formatErrorMessage e
      | none => "Error"
    | none => host.inspect st.useColor h v

/-- `Logger.formatArgs`. -/
def formatArgs (st : LoggerState) (host : Host) (h : Heap) (args : List JVal) :
    String :=
  if args.isEmpty then ""
  else " " ++ String.intercalate " " (args.map (formatValue st host h))

/-- `Logger.logStack`: one write per non-blank line of the stack text. -/
def stackLines (st : LoggerState) (host : Host) (level : Level)
    (stack : String) (indent : String) : List Event :=
  ((splitLines stack).filter (fun l => nonBlank l)).map
    (fun l => writeLine st level (prefixText st host level ++ indent ++ l))

/-- `Logger.logCauseChain`: one `Caused by:` write per cause in the chain. -/
def causeLines (st : LoggerState) (host : Host) (h : Heap) (level : Level)
    (r : Nat) : List Event :=
  (getErrorCauses h r).map (fun c =>
    writeLine st level (prefixText st host level ++ "  Caused by: " ++
      (match errAt h c with
       | some e => formatErrorMessage e
       | none => "Error")))

/-- The per-error block of the text path: cause chain, then the error's own
stack when truthy. -/
def errorBlock (st : LoggerState) (host : Host) (h : Heap) (level : Level)
    (r : Nat) : List Event :=
  causeLines st host h level r ++
    (match errAt h r with
     | some e =>
       match e.stack with
       | some s => if s = "" then [] else stackLines st host level s "  "
       | none => []
     | none => [])

/-- The trailing native-stack section of the text path: a `Stack trace:`
header then one write per frame, emitted only when the captured native
stack is non-empty (truthiness of the string). -/
def nativeSection (st : LoggerState) (host : Host) (level : Level) : List Event :=
  let ns := captureNativeStack host.stack
  if ns = "" then []
  else writeLine st level (prefixText st host level ++ "  Stack trace:") ::
    stackLines st host level ns "  "

/-- The error references among `[message, ...args]` (`instanceof Error`
filter), in order. -/
def errRefsOf (h : Heap) (message : JVal) (args : List JVal) : List Nat :=
  (message :: args).filterMap (asErrRef h)

/-- Serialize a list of error references, threading the fresh-id counter
(`errors.map((error) => this.serializeError(error))`). -/
def serErrList (h : Heap) : List Nat → Nat → List SVal × Nat
  | [], n => ([], n)
  | r :: rest, n =>
    let p := match errAt h r with
      | some e => serializeErrorS h e r n
      | none => (SVal.fobj n [], n + 1)
    let q := serErrList h rest p.2
    (p.1 :: q.1, q.2)

/-- `Logger.buildJsonRecord`.  Field order follows the source: `timestamp`,
`level`, `message`, then conditionally `module`, `args`, `duration`,
`durationMs`, and for `error`/`fatal` levels `errors` (when any value is
error-like) and `nativeStack`.  Fresh identities: 1 = record, 2 = `args`
array, 3 = `errors` array, 4.. = serialized error entries; the returned
counter is the first identity free for stringification. -/
def buildJsonRecordS (st : LoggerState) (host : Host) (h : Heap)
    (level : Level) (message : JVal) (args : List JVal) (ctx : Option JsonCtx) :
    List (String × SVal) × Nat :=
  let base : List (String × SVal) :=
    [("timestamp", SVal.prim (JPrim.jstr host.timestamp)),
     ("level", SVal.prim (JPrim.jstr (levelName level))),
     ("message", embed message)]
  let moduleF : List (String × SVal) :=
    if st.module ≠ "" then [("module", SVal.prim (JPrim.jstr st.module))] else []
  let argsF : List (String × SVal) :=
    if args.isEmpty then [] else [("args", SVal.farr 2 (args.map embed))]
  let durF : List (String × SVal) :=
    match ctx.bind JsonCtx.duration with
    | some d => [("duration", SVal.prim (JPrim.jstr d))]
    | none => []
  let durMsF : List (String × SVal) :=
    match ctx.bind JsonCtx.durationMs with
    | some m => [("durationMs", SVal.prim (JPrim.jint m))]
    | none => []
  let front := base ++ moduleF ++ argsF ++ durF ++ durMsF
  if level = Level.error ∨ level = Level.fatal then
    let errs := errRefsOf h message args
    let p := serErrList h errs 4
    let errF : List (String × SVal) :=
      if errs.isEmpty then [] else [("errors", SVal.farr 3 p.1)]
    (front ++ errF ++
      [("nativeStack", SVal.prim (JPrim.jstr (captureNativeStack host.stack)))],
     p.2)
  else (front, 4)

/-- `Logger.logInternal`: level filter, then the `jsonl` or text emission
path, then `process.exit(1)` on `fatal`.  The result is the ordered list of
events the call performed and, when `JSON.stringify` threw, the error that
propagated out of the call (in which case no further action happened). -/
def logInternal (st : LoggerState) (host : Host) (h : Heap) (fuel : Nat)
    (level : Level) (message : JVal) (args : List JVal) (ctx : Option JsonCtx) :
    List Event × Option SErr :=
  if rank level < rank st.logLevel then ([], none)
  else if st.outputFormat = OutputFormat.jsonl then
    let p := buildJsonRecordS st host h level message args ctx
    match stringifyJsonRecord h fuel p.1 p.2 with
    | Except.ok s =>
      (writeLine st level s ::
        (if level = Level.fatal then [Event.exit 1] else []), none)
    | Except.error e => ([], some e)
  else
    let primary :=
      writeLine st level (prefixText st host level ++
        formatValue st host h message ++ formatArgs st host h args)
    let extras :=
      if level = Level.error ∨ level = Level.fatal then
        ((errRefsOf h message args).map (errorBlock st host h level)).flatten ++
          nativeSection st host level
      else []
    (primary :: extras ++ (if level = Level.fatal then [Event.exit 1] else []),
     none)

/-! ## Construction and level mutation -/

/-- `OUTPUT_FORMATS` as strings. -/
def OUTPUT_FORMAT_NAMES : List String := ["text", "jsonl"]

/-- Parse a level string (`LOG_LEVELS.includes` membership). -/
def parseLevel : String → Option Level
  | "debug" => some Level.debug
  | "info" => some Level.info
  | "warn" => some Level.warn
  | "error" => some Level.error
  | "fatal" => some Level.fatal
  | _ => none

/-- Parse an output-format string (`OUTPUT_FORMATS.includes` membership). -/
def parseFmt : String → Option OutputFormat
  | "text" => some OutputFormat.text
  | "jsonl" => some OutputFormat.jsonl
  | _ => none

/-- The constructor's invalid-level message. -/
def invalidLevelMsg (s : String) : String :=
  ("Invalid log level: \"" ++ s ++ "\". Valid levels: ") ++
    String.intercalate ", " LOG_LEVEL_NAMES

/-- The constructor's invalid-format message. -/
def invalidFormatMsg (s : String) : String :=
  ("Invalid output format: \"" ++ s ++ "\". Valid formats: ") ++
    String.intercalate ", " OUTPUT_FORMAT_NAMES

/-- The `Logger` constructor: validate the level, then the output format,
then assemble the state.  `useColor`/`useTruecolor` are the
environment-derived capability flags and `truecolorOf` stands for
`moduleToTruecolor` (`src/color.ts`), whose hue computation is a
floating-point collaborator no claim depends on. -/
def mkLogger (levelStr moduleStr fmtStr : String) (split : Bool)
    (useColor useTruecolor : Bool) (truecolorOf : String → String) :
    Except String LoggerState :=
  match parseLevel levelStr with
  | none => Except.error (invalidLevelMsg levelStr)
  | some lvl =>
    match parseFmt fmtStr with
    | none => Except.error (invalidFormatMsg fmtStr)
    | some fmt =>
      Except.ok
        { logLevel := lvl
          module := moduleStr
          outputFormat := fmt
          jsonlSplit := split
          useColor := useColor
          useTruecolor := useColor && useTruecolor
          moduleColor :=
            if moduleStr = "" then ""
            else if useColor && useTruecolor then truecolorOf moduleStr
            else colorMagenta }

/-- `Logger.setLogLevel`: on an invalid level the error is thrown before
any assignment, so the state is returned unchanged together with the
message; on a valid level only `logLevel` is updated. -/
def setLogLevel (st : LoggerState) (levelStr : String) :
    LoggerState × Option String :=
  match parseLevel levelStr with
  | none => (st, some (invalidLevelMsg levelStr))
  | some l => ({ st with logLevel := l }, none)

/-! ## Concrete fixtures used by witnesses and counterexamples -/

/-- Whether `p` is a prefix of `l`. -/
def isPre : List Char → List Char → Bool
  | [], _ => true
  | _ :: _, [] => false
  | p :: ps, c :: cs => p = c && isPre ps cs

/-- Number of positions of `l` at which `pat` occurs. -/
def countOccsL (pat : List Char) : List Char → Nat
  | [] => 0
  | c :: cs => (if isPre pat (c :: cs) then 1 else 0) + countOccsL pat cs

/-- Number of occurrences of the non-empty pattern `pat` in `s`. -/
def countOccs (pat s : String) : Nat := countOccsL pat.toList s.toList

instance : DecidableEq (Except SErr String) := fun x y =>
  match x, y with
  | Except.ok a, Except.ok b =>
    if h : a = b then isTrue (by rw [h])
    else isFalse (by intro hc; cases hc; exact h rfl)
  | Except.error a, Except.error b =>
    if h : a = b then isTrue (by rw [h])
    else isFalse (by intro hc; cases hc; exact h rfl)
  | Except.ok _, Except.error _ => isFalse (by intro hc; cases hc)
  | Except.error _, Except.ok _ => isFalse (by intro hc; cases hc)

instance : DecidableEq (Except SErr Nat) := fun x y =>
  match x, y with
  | Except.ok a, Except.ok b =>
    if h : a = b then isTrue (by rw [h])
    else isFalse (by intro hc; cases hc; exact h rfl)
  | Except.error a, Except.error b =>
    if h : a = b then isTrue (by rw [h])
    else isFalse (by intro hc; cases hc; exact h rfl)
  | Except.ok _, Except.error _ => isFalse (by intro hc; cases hc)
  | Except.error _, Except.ok _ => isFalse (by intro hc; cases hc)

/-- A host with a two-frame call-site stack and an opaque inspector. -/
def siteHost : Host :=
  ⟨"2024-01-01T00:00:00.000Z", "Error\n    at site1\n    at site2",
   fun _ _ _ => "<v>"⟩

/-- A text-mode logger at minimum level `debug` with module `Test`. -/
def textSt : LoggerState :=
  ⟨Level.debug, "Test", OutputFormat.text, false, false, false, ""⟩

/-- A jsonl-mode logger at minimum level `debug`, unified stream. -/
def jsonSt : LoggerState :=
  ⟨Level.debug, "", OutputFormat.jsonl, false, false, false, ""⟩

/-- Heap for the serializer bug input: object 2 holds an error (object 0,
whose cause is object 1) under key `e` and a self-reference under key `x`. -/
def bugHeap : Heap :=
  [HObj.herr ⟨"Error", some "boom", some "Error: boom\n    at depth", JVal.vref 1⟩,
   HObj.herr ⟨"Error", some "root", none, JVal.undef⟩,
   HObj.obj [("e", JVal.vref 0), ("x", JVal.vref 2)]]

/-- Heap with a single plain object, passed twice as sibling arguments. -/
def sibHeap : Heap := [HObj.obj [("traceId", JVal.prim (JPrim.jstr "abc123"))]]

/-- Heap with a plain cyclic object (no errors involved). -/
def cycHeap : Heap := [HObj.obj [("self", JVal.vref 0)]]

/-- Heap with a self-caused error (`error.cause === error`). -/
def selfHeap : Heap := [HObj.herr ⟨"A", some "a", none, JVal.vref 0⟩]

/-- Heap with a two-cycle `A.cause = B, B.cause = A` (A = 0, B = 1). -/
def twoCycleHeap : Heap :=
  [HObj.herr ⟨"A", some "a", none, JVal.vref 1⟩,
   HObj.herr ⟨"B", some "b", none, JVal.vref 0⟩]

/-- The key list of a JSON record, in field order. -/
def recordKeys (st : LoggerState) (host : Host) (h : Heap) (level : Level)
    (message : JVal) (args : List JVal) (ctx : Option JsonCtx) : List String :=
  (buildJsonRecordS st host h level message args ctx).1.map Prod.fst

/-! ## Helper lemmas -/

/-- A successful `instanceof Error` test yields an in-range reference. -/
theorem asErrRef_lt (h : Heap) (v : JVal) (r : Nat)
    (hv : asErrRef h v = some r) : r < h.length := by
  by_contra hge
  push_neg at hge
  cases v with
  | prim p => simp [asErrRef] at hv
  | undef => simp [asErrRef] at hv
  | vref s =>
    simp only [asErrRef] at hv
    cases hl : h[s]? with
    | none => rw [hl] at hv; simp at hv
    | some o =>
      rw [hl] at hv
      cases o with
      | obj fs => simp at hv
      | arr es => simp at hv
      | herr e =>
        simp at hv
        subst hv
        rw [List.getElem?_eq_none hge] at hl
        exact Option.noConfusion hl

/-- Everything the cause walk returns was not previously seen. -/
theorem causesLoop_not_seen (h : Heap) :
    ∀ fuel seen cur, ∀ x ∈ causesLoop h fuel seen cur, x ∉ seen := by
  intro fuel
  induction fuel with
  | zero => intro seen cur x hx; simp [causesLoop] at hx
  | succ n ih =>
    intro seen cur x hx
    cases har : asErrRef h cur with
    | none => simp [causesLoop, har] at hx
    | some r =>
      by_cases hr : r ∈ seen
      · simp [causesLoop, har, hr] at hx
      · simp only [causesLoop, har, if_neg hr] at hx
        rcases List.mem_cons.mp hx with rfl | hx2
        · exact hr
        · intro hxseen
          exact ih (r :: seen) (causeOf h r) x hx2 (List.mem_cons_of_mem _ hxseen)

/-- The cause walk never lists a reference twice. -/
theorem causesLoop_nodup (h : Heap) :
    ∀ fuel seen cur, (causesLoop h fuel seen cur).Nodup := by
  intro fuel
  induction fuel with
  | zero => intro seen cur; simp [causesLoop]
  | succ n ih =>
    intro seen cur
    cases har : asErrRef h cur with
    | none => simp [causesLoop, har]
    | some r =>
      by_cases hr : r ∈ seen
      · simp [causesLoop, har, hr]
      · simp only [causesLoop, har, if_neg hr, List.nodup_cons]
        refine ⟨fun hmem => ?_, ih _ _⟩
        exact causesLoop_not_seen h n (r :: seen) (causeOf h r) r hmem
          (List.mem_cons_self r seen)

/-- One extra unit of fuel changes nothing once the fuel exceeds the number
of unseen in-range references: the loop terminates. -/
theorem causesLoop_mono (h : Heap) :
    ∀ fuel seen cur,
      (Finset.range h.length \ seen.toFinset).card < fuel →
      causesLoop h (fuel + 1) seen cur = causesLoop h fuel seen cur := by
  intro fuel
  induction fuel with
  | zero => intro seen cur hc; exact absurd hc (Nat.not_lt_zero _)
  | succ n ih =>
    intro seen cur hc
    cases har : asErrRef h cur with
    | none => simp [causesLoop, har]
    | some r =>
      by_cases hr : r ∈ seen
      · simp [causesLoop, har, hr]
      · have hrlt : r < h.length := asErrRef_lt h cur r har
        have hmem : r ∈ Finset.range h.length \ seen.toFinset := by
          simp [Finset.mem_sdiff, Finset.mem_range, hrlt, List.mem_toFinset, hr]
        have hsub : Finset.range h.length \ (r :: seen).toFinset ⊆
            Finset.range h.length \ seen.toFinset := by
          rw [List.toFinset_cons]
          exact Finset.sdiff_subset_sdiff (Finset.Subset.refl _)
            (Finset.subset_insert r _)
        have hss : Finset.range h.length \ (r :: seen).toFinset ⊂
            Finset.range h.length \ seen.toFinset := by
          refine (Finset.ssubset_iff_of_subset hsub).mpr ⟨r, hmem, ?_⟩
          rw [List.toFinset_cons]
          simp [Finset.mem_sdiff]
        have hcard : (Finset.range h.length \ (r :: seen).toFinset).card < n := by
          have := Finset.card_lt_card hss
          omega
        have e1 : causesLoop h (n + 1 + 1) seen cur
            = r :: causesLoop h (n + 1) (r :: seen) (causeOf h r) := by
          conv_lhs => rw [causesLoop.eq_def]
          simp only [har, if_neg hr]
        have e2 : causesLoop h (n + 1) seen cur
            = r :: causesLoop h n (r :: seen) (causeOf h r) := by
          conv_lhs => rw [causesLoop.eq_def]
          simp only [har, if_neg hr]
        rw [e1, e2, ih (r :: seen) (causeOf h r) hcard]

/-- Any amount of additional fuel beyond the bound changes nothing. -/
theorem causesLoop_stable (h : Heap) :
    ∀ extra fuel seen cur,
      (Finset.range h.length \ seen.toFinset).card < fuel →
      causesLoop h (fuel + extra) seen cur = causesLoop h fuel seen cur := by
  intro extra
  induction extra with
  | zero => intro fuel seen cur _; rfl
  | succ k ih =>
    intro fuel seen cur hc
    have h1 : fuel + (k + 1) = (fuel + k) + 1 := by omega
    rw [h1, causesLoop_mono h (fuel + k) seen cur (by
      calc (Finset.range h.length \ seen.toFinset).card < fuel := hc
        _ ≤ fuel + k := Nat.le_add_right _ _)]
    exact ih fuel seen cur hc

/-! ## Claim theorems -/

/-- C2: `getErrorCauses` terminates on every input (the loop's result is
already stable at fuel `h.length + 1`, so arbitrary extra fuel changes
nothing), visits each error node at most once (the returned chain has no
duplicates and never revisits the root), and on the concrete heaps: a
self-caused error yields the empty chain, and a two-cycle `A -> B -> A`
yields exactly `[B]`. -/
theorem getErrorCauses_spec :
    (∀ (h : Heap) (e : Nat) (extra : Nat),
      causesLoop h (h.length + 1 + extra) [e] (causeOf h e) = getErrorCauses h e) ∧
    (∀ (h : Heap) (e : Nat),
      (getErrorCauses h e).Nodup ∧ e ∉ getErrorCauses h e) ∧
    getErrorCauses selfHeap 0 = [] ∧
    getErrorCauses twoCycleHeap 0 = [1] := by
  refine ⟨?_, ?_, by decide, by decide⟩
  · intro h e extra
    unfold getErrorCauses
    apply causesLoop_stable
    calc (Finset.range h.length \ [e].toFinset).card
        ≤ (Finset.range h.length).card := Finset.card_le_card Finset.sdiff_subset
      _ = h.length := Finset.card_range _
      _ < h.length + 1 := Nat.lt_succ_self _
  · intro h e
    refine ⟨causesLoop_nodup h _ _ _, fun hmem => ?_⟩
    exact causesLoop_not_seen h _ _ _ e hmem (List.mem_cons_self e [])

/-- C2 witness: the general conjuncts applied at the two-cycle heap. -/
theorem getErrorCauses_spec_witness :
    causesLoop twoCycleHeap (twoCycleHeap.length + 1 + 5) [0]
        (causeOf twoCycleHeap 0) = getErrorCauses twoCycleHeap 0 ∧
    (getErrorCauses twoCycleHeap 0).Nodup ∧ 0 ∉ getErrorCauses twoCycleHeap 0 :=
  ⟨getErrorCauses_spec.1 twoCycleHeap 0 5, getErrorCauses_spec.2.1 twoCycleHeap 0⟩

/-- C8: `formatErrorMessage` returns the message whenever it is defined and
non-empty, otherwise the name whenever that is non-empty, otherwise the
literal `"Error"`; the result is never the empty string, and an error with
empty message and name `"TypeError"` renders as `"TypeError"`. -/
theorem formatErrorMessage_spec :
    (∀ (e : ErrObj) (m : String), e.msg = some m → m ≠ "" →
      formatErrorMessage e = m) ∧
    (∀ e : ErrObj, (e.msg = none ∨ e.msg = some "") → e.name ≠ "" →
      formatErrorMessage e = e.name) ∧
    (∀ e : ErrObj, (e.msg = none ∨ e.msg = some "") → e.name = "" →
      formatErrorMessage e = "Error") ∧
    (∀ e : ErrObj, formatErrorMessage e ≠ "") ∧
    formatErrorMessage ⟨"TypeError", some "", none, JVal.undef⟩ = "TypeError" := by
  refine ⟨?_, ?_, ?_, ?_, by decide⟩
  · intro e m hm hne; simp [formatErrorMessage, hm, hne]
  · intro e hm hn; rcases hm with hm | hm <;> simp [formatErrorMessage, hm, hn]
  · intro e hm hn; rcases hm with hm | hm <;> simp [formatErrorMessage, hm, hn]
  · intro e
    unfold formatErrorMessage
    cases hm : e.msg with
    | none =>
      by_cases hn : e.name = "" <;> simp [hn]
    | some m =>
      by_cases hme : m = ""
      · subst hme
        by_cases hn : e.name = "" <;> simp [hn]
      · simp [hme]

/-- C8 witness: the fallback conjuncts applied at an empty-message error. -/
theorem formatErrorMessage_spec_witness :
    ((ErrObj.mk "TypeError" (some "") none JVal.undef).msg = none ∨
      (ErrObj.mk "TypeError" (some "") none JVal.undef).msg = some "") ∧
    (ErrObj.mk "TypeError" (some "") none JVal.undef).name ≠ "" ∧
    formatErrorMessage (ErrObj.mk "TypeError" (some "") none JVal.undef) =
      (ErrObj.mk "TypeError" (some "") none JVal.undef).name :=
  ⟨Or.inr rfl, by decide,
    formatErrorMessage_spec.2.1 (ErrObj.mk "TypeError" (some "") none JVal.undef)
      (Or.inr rfl) (by decide)⟩

/-- C6: stream routing.  In text mode `debug`/`info` write to the primary
stream and `warn`/`error`/`fatal` to the secondary stream; in jsonl mode
with the split flag unset every level writes to the primary stream; with
the split flag set the text-mode routing applies. -/
theorem writeLine_routing :
    ∀ (st : LoggerState) (level : Level) (text : String),
    (st.outputFormat = OutputFormat.text →
      writeLine st level text =
        Event.line (if level = Level.debug ∨ level = Level.info
          then StreamId.stdoutS else StreamId.stderrS) text) ∧
    (st.outputFormat = OutputFormat.jsonl → st.jsonlSplit = false →
      writeLine st level text = Event.line StreamId.stdoutS text) ∧
    (st.outputFormat = OutputFormat.jsonl → st.jsonlSplit = true →
      writeLine st level text =
        Event.line (if level = Level.debug ∨ level = Level.info
          then StreamId.stdoutS else StreamId.stderrS) text) := by
  intro st level text
  refine ⟨?_, ?_, ?_⟩
  · intro ht
    cases level <;> simp [writeLine, STDOUT_LEVELS, ht]
  · intro hj hs
    simp [writeLine, hj, hs]
  · intro hj hs
    cases level <;> simp [writeLine, STDOUT_LEVELS, hs]

/-- C6 witness: a `warn` line in text mode routes to the secondary stream. -/
theorem writeLine_routing_witness :
    textSt.outputFormat = OutputFormat.text ∧
    writeLine textSt Level.warn "w" =
      Event.line (if Level.warn = Level.debug ∨ Level.warn = Level.info
        then StreamId.stdoutS else StreamId.stderrS) "w" :=
  ⟨rfl, (writeLine_routing textSt Level.warn "w").1 rfl⟩

/-- C5: an invalid minimum level or output format fails construction with a
message that ends in the literal ordered list of valid values, and an
invalid level passed to the mutator returns the message and leaves the
state (hence the governing minimum level) unchanged. -/
theorem config_validation :
    ∀ (s mod fmtS t : String) (split uc ut : Bool) (tc : String → String)
      (st : LoggerState),
    (parseLevel s = none →
      mkLogger s mod fmtS split uc ut tc = Except.error (invalidLevelMsg s)) ∧
    (∀ l, parseLevel s = some l → parseFmt fmtS = none →
      mkLogger s mod fmtS split uc ut tc = Except.error (invalidFormatMsg fmtS)) ∧
    (invalidLevelMsg s =
      ("Invalid log level: \"" ++ s ++ "\". Valid levels: ") ++
        "debug, info, warn, error, fatal") ∧
    (invalidFormatMsg s =
      ("Invalid output format: \"" ++ s ++ "\". Valid formats: ") ++
        "text, jsonl") ∧
    (parseLevel t = none →
      setLogLevel st t = (st, some (invalidLevelMsg t)) ∧
      (setLogLevel st t).1.logLevel = st.logLevel) := by
  intro s mod fmtS t split uc ut tc st
  refine ⟨?_, ?_, ?_, ?_, ?_⟩
  · intro hp; simp [mkLogger, hp]
  · intro l hp hf; simp [mkLogger, hp, hf]
  · unfold invalidLevelMsg
    congr 1
  · unfold invalidFormatMsg
    congr 1
  · intro hp
    refine ⟨by simp [setLogLevel, hp], by simp [setLogLevel, hp]⟩

/-- C5 witness: the mutator conjunct at the invalid level `"verbose"`. -/
theorem config_validation_witness :
    parseLevel "verbose" = none ∧
    setLogLevel textSt "verbose" = (textSt, some (invalidLevelMsg "verbose")) ∧
    (setLogLevel textSt "verbose").1.logLevel = textSt.logLevel :=
  ⟨rfl, (config_validation "verbose" "" "text" "verbose" false false false
    (fun _ => "") textSt).2.2.2.2 rfl⟩

/-- The record's key list, segment by segment. -/
theorem recordKeys_eq (st : LoggerState) (host : Host) (h : Heap)
    (level : Level) (message : JVal) (args : List JVal) (ctx : Option JsonCtx) :
    recordKeys st host h level message args ctx =
      ["timestamp", "level", "message"] ++
      (if st.module ≠ "" then ["module"] else []) ++
      (if args.isEmpty then [] else ["args"]) ++
      (match ctx.bind JsonCtx.duration with
        | some _ => ["duration"] | none => []) ++
      (match ctx.bind JsonCtx.durationMs with
        | some _ => ["durationMs"] | none => []) ++
      (if level = Level.error ∨ level = Level.fatal then
        (if (errRefsOf h message args).isEmpty then [] else ["errors"]) ++
          ["nativeStack"]
       else []) := by
  unfold recordKeys buildJsonRecordS
  by_cases hm : st.module = "" <;>
    by_cases ha : args.isEmpty <;>
    rcases hd : ctx.bind JsonCtx.duration with _ | d <;>
    rcases hdm : ctx.bind JsonCtx.durationMs with _ | dm <;>
    by_cases hef : level = Level.error ∨ level = Level.fatal <;>
    by_cases he : (errRefsOf h message args).isEmpty <;>
    simp_all [List.map_append]

/-- C7: every JSON record contains `timestamp`, `level` and `message`;
`module` is present iff a module label is set, `args` iff the extra
arguments are non-empty, `duration`/`durationMs` iff the respective
duration-context field is supplied, `errors` iff the level is
`error`/`fatal` and some value among message/args is error-like, and
`nativeStack` iff the level is `error`/`fatal`. -/
theorem jsonRecord_keys :
    ∀ (st : LoggerState) (host : Host) (h : Heap) (level : Level)
      (message : JVal) (args : List JVal) (ctx : Option JsonCtx),
    "timestamp" ∈ recordKeys st host h level message args ctx ∧
    "level" ∈ recordKeys st host h level message args ctx ∧
    "message" ∈ recordKeys st host h level message args ctx ∧
    ("module" ∈ recordKeys st host h level message args ctx ↔ st.module ≠ "") ∧
    ("args" ∈ recordKeys st host h level message args ctx ↔ args ≠ []) ∧
    ("duration" ∈ recordKeys st host h level message args ctx ↔
      (ctx.bind JsonCtx.duration).isSome) ∧
    ("durationMs" ∈ recordKeys st host h level message args ctx ↔
      (ctx.bind JsonCtx.durationMs).isSome) ∧
    ("errors" ∈ recordKeys st host h level message args ctx ↔
      ((level = Level.error ∨ level = Level.fatal) ∧
        errRefsOf h message args ≠ [])) ∧
    ("nativeStack" ∈ recordKeys st host h level message args ctx ↔
      (level = Level.error ∨ level = Level.fatal)) := by
  intro st host h level message args ctx
  rw [recordKeys_eq]
  by_cases hm : st.module = "" <;>
    by_cases ha : args.isEmpty <;>
    rcases hd : ctx.bind JsonCtx.duration with _ | d <;>
    rcases hdm : ctx.bind JsonCtx.durationMs with _ | dm <;>
    by_cases hef : level = Level.error ∨ level = Level.fatal <;>
    by_cases he : (errRefsOf h message args).isEmpty <;>
    simp_all [List.isEmpty_iff]

/-- C7 witness: the conditional keys at a concrete record (module unset,
no args, no duration context, `info` level). -/
theorem jsonRecord_keys_witness :
    "timestamp" ∈ recordKeys jsonSt siteHost [] Level.info
      (JVal.prim (JPrim.jstr "x")) [] none ∧
    ("module" ∈ recordKeys jsonSt siteHost [] Level.info
      (JVal.prim (JPrim.jstr "x")) [] none ↔ jsonSt.module ≠ "") :=
  ⟨(jsonRecord_keys jsonSt siteHost [] Level.info
      (JVal.prim (JPrim.jstr "x")) [] none).1,
   (jsonRecord_keys jsonSt siteHost [] Level.info
      (JVal.prim (JPrim.jstr "x")) [] none).2.2.2.1⟩

/-- C4: for every `error`/`fatal` JSON record, the final field is
`nativeStack`, and its value is the stack captured at the logging call
site itself — the host-captured `new Error().stack` string with its first
entry (the `"Error"` header line) removed — independent of the stacks of
any logged error on the heap. -/
theorem nativeStack_capture :
    ∀ (st : LoggerState) (host : Host) (h : Heap) (level : Level)
      (message : JVal) (args : List JVal) (ctx : Option JsonCtx),
    (level = Level.error ∨ level = Level.fatal) →
    ∃ pre, (buildJsonRecordS st host h level message args ctx).1 =
        pre ++ [("nativeStack",
          SVal.prim (JPrim.jstr
            (String.intercalate "\n" ((splitLines host.stack).drop 1))))] ∧
      "nativeStack" ∉ pre.map Prod.fst := by
  intro st host h level message args ctx hef
  simp only [buildJsonRecordS, if_pos hef]
  refine ⟨_, rfl, ?_⟩
  · intro hmem
    by_cases hm : st.module = "" <;>
      by_cases ha : args.isEmpty <;>
      rcases hd : ctx.bind JsonCtx.duration with _ | d <;>
      rcases hdm : ctx.bind JsonCtx.durationMs with _ | dm <;>
      by_cases he : (errRefsOf h message args).isEmpty <;>
      simp_all [List.map_append]

/-- Every write produced by `writeLine` is a line event. -/
theorem writeLine_isLine (st : LoggerState) (l : Level) (t : String) :
    (writeLine st l t).isLine := by
  simp only [writeLine]
  split
  · simp [Event.isLine]
  · split <;> simp [Event.isLine]

/-- Stack sections are made of line events only. -/
theorem stackLines_isLine (st : LoggerState) (host : Host) (level : Level)
    (s ind : String) : ∀ e ∈ stackLines st host level s ind, e.isLine := by
  intro e he
  rcases List.mem_map.mp he with ⟨l, _, rfl⟩
  exact writeLine_isLine st level _

/-- Cause sections are made of line events only. -/
theorem causeLines_isLine (st : LoggerState) (host : Host) (h : Heap)
    (level : Level) (r : Nat) : ∀ e ∈ causeLines st host h level r, e.isLine := by
  intro e he
  rcases List.mem_map.mp he with ⟨c, _, rfl⟩
  exact writeLine_isLine st level _

/-- Per-error blocks are made of line events only. -/
theorem errorBlock_isLine (st : LoggerState) (host : Host) (h : Heap)
    (level : Level) (r : Nat) : ∀ e ∈ errorBlock st host h level r, e.isLine := by
  intro e he
  rcases List.mem_append.mp he with h1 | h2
  · exact causeLines_isLine st host h level r e h1
  · rcases he2 : errAt h r with _ | eo
    · simp only [errorBlock, he2] at h2; simp at h2
    · simp only [errorBlock, he2] at h2
      rcases hs : eo.stack with _ | s
      · rw [hs] at h2; dsimp only at h2; simp at h2
      · rw [hs] at h2
        dsimp only at h2
        by_cases hse : s = ""
        · rw [if_pos hse] at h2; simp at h2
        · rw [if_neg hse] at h2
          exact stackLines_isLine st host level s "  " e h2

/-- The native-stack section is made of line events only. -/
theorem nativeSection_isLine (st : LoggerState) (host : Host) (level : Level) :
    ∀ e ∈ nativeSection st host level, e.isLine := by
  intro e he
  simp only [nativeSection] at he
  split at he
  · simp at he
  · rcases List.mem_cons.mp he with rfl | h2
    · exact writeLine_isLine st level _
    · exact stackLines_isLine st host level _ "  " e h2

/-- The events of one log call are some line events, optionally followed by
a single trailing `exit` when (and only when) the level is `fatal`. -/
theorem logInternal_shape (st : LoggerState) (host : Host) (h : Heap)
    (fuel : Nat) (level : Level) (message : JVal) (args : List JVal)
    (ctx : Option JsonCtx) :
    ∃ ws, (∀ e ∈ ws, e.isLine) ∧
      ((logInternal st host h fuel level message args ctx).1 = ws ∨
        ((logInternal st host h fuel level message args ctx).1 =
            ws ++ [Event.exit 1] ∧ level = Level.fatal ∧ ws ≠ [])) := by
  by_cases hlt : rank level < rank st.logLevel
  · exact ⟨[], by simp, Or.inl (by simp [logInternal, hlt])⟩
  by_cases hj : st.outputFormat = OutputFormat.jsonl
  · cases hs : stringifyJsonRecord h fuel
        (buildJsonRecordS st host h level message args ctx).1
        (buildJsonRecordS st host h level message args ctx).2 with
    | error e =>
      exact ⟨[], by simp, Or.inl (by simp [logInternal, hlt, hj, hs])⟩
    | ok s =>
      by_cases hf : level = Level.fatal
      · refine ⟨[writeLine st level s], ?_, Or.inr ⟨?_, hf, by simp⟩⟩
        · intro e he
          rcases List.mem_singleton.mp he with rfl
          exact writeLine_isLine st level s
        · subst hf
          simp [logInternal, hlt, hj, hs]
      · refine ⟨[writeLine st level s], ?_, Or.inl ?_⟩
        · intro e he
          rcases List.mem_singleton.mp he with rfl
          exact writeLine_isLine st level s
        · simp [logInternal, hlt, hj, hs, hf]
  · refine ⟨writeLine st level (prefixText st host level ++
        formatValue st host h message ++ formatArgs st host h args) ::
        (if level = Level.error ∨ level = Level.fatal then
          ((errRefsOf h message args).map (errorBlock st host h level)).flatten ++
            nativeSection st host level
         else []), ?_, ?_⟩
    · intro e he
      rcases List.mem_cons.mp he with rfl | he2
      · exact writeLine_isLine st level _
      · by_cases hef : level = Level.error ∨ level = Level.fatal
        · rw [if_pos hef] at he2
          rcases List.mem_append.mp he2 with hA | hB
          · rcases List.mem_flatten.mp hA with ⟨l, hl, hel⟩
            rcases List.mem_map.mp hl with ⟨r, _, rfl⟩
            exact errorBlock_isLine st host h level r e hel
          · exact nativeSection_isLine st host level e hB
        · rw [if_neg hef] at he2; simp at he2
    · by_cases hf : level = Level.fatal
      · refine Or.inr ⟨?_, hf, by simp⟩
        subst hf
        simp [logInternal, hlt, hj, List.append_assoc]
      · refine Or.inl ?_
        simp [logInternal, hlt, hj, hf]

/-- C1 (amended): a log call emits iff the requested rank reaches the
configured minimum (equality passes): below the minimum nothing at all
happens; at or above it, in text mode exactly one primary line is written,
with additional lines only for `error`/`fatal` severity, and in jsonl mode
exactly one record line is written provided `JSON.stringify` does not
throw (see the C3 serializer bug for the throwing case). -/
theorem levelFilter_output :
    ∀ (st : LoggerState) (host : Host) (h : Heap) (fuel : Nat) (level : Level)
      (message : JVal) (args : List JVal) (ctx : Option JsonCtx),
    (rank level < rank st.logLevel →
      logInternal st host h fuel level message args ctx = ([], none)) ∧
    (rank st.logLevel ≤ rank level → st.outputFormat = OutputFormat.text →
      ∃ extras,
        logInternal st host h fuel level message args ctx =
          (writeLine st level (prefixText st host level ++
              formatValue st host h message ++ formatArgs st host h args) ::
            extras ++ (if level = Level.fatal then [Event.exit 1] else []),
           none) ∧
        (¬(level = Level.error ∨ level = Level.fatal) → extras = [])) ∧
    (rank st.logLevel ≤ rank level → st.outputFormat = OutputFormat.jsonl →
      ∀ s,
        stringifyJsonRecord h fuel
          (buildJsonRecordS st host h level message args ctx).1
          (buildJsonRecordS st host h level message args ctx).2 = Except.ok s →
        logInternal st host h fuel level message args ctx =
          (writeLine st level s ::
            (if level = Level.fatal then [Event.exit 1] else []), none)) := by
  intro st host h fuel level message args ctx
  refine ⟨?_, ?_, ?_⟩
  · intro hlt
    simp [logInternal, hlt]
  · intro hle htext
    have hnl : ¬ rank level < rank st.logLevel := Nat.not_lt.mpr hle
    refine ⟨if level = Level.error ∨ level = Level.fatal then
        ((errRefsOf h message args).map (errorBlock st host h level)).flatten ++
          nativeSection st host level
      else [], ?_, fun hne => if_neg hne⟩
    simp [logInternal, hnl, htext]
  · intro hle hjson s hok
    have hnl : ¬ rank level < rank st.logLevel := Nat.not_lt.mpr hle
    simp [logInternal, hnl, hjson, hok]

/-- C1 counterexample to the claim as stated: a jsonl-mode `error` call at
minimum level `debug` passes the rank filter, yet writes nothing at all —
the record's serialization throws (a cyclic argument holding a
cause-bearing error), so no primary line is produced. -/
theorem levelFilter_counterexample :
    rank jsonSt.logLevel ≤ rank Level.error ∧
    logInternal jsonSt siteHost bugHeap 100 Level.error
      (JVal.prim (JPrim.jstr "m")) [JVal.vref 2] none = ([], some SErr.cyclic) := by
  constructor
  · decide
  · decide

/-- C1 witness: the text-mode conjunct applied at an `info` call that
passes an `info` filter. -/
theorem levelFilter_output_witness :
    rank textSt.logLevel ≤ rank Level.info ∧
    textSt.outputFormat = OutputFormat.text ∧
    ∃ extras,
      logInternal textSt siteHost [] 5 Level.info
          (JVal.prim (JPrim.jstr "hi")) [] none =
        (writeLine textSt Level.info (prefixText textSt siteHost Level.info ++
            formatValue textSt siteHost [] (JVal.prim (JPrim.jstr "hi")) ++
            formatArgs textSt siteHost [] []) ::
          extras ++ (if Level.info = Level.fatal then [Event.exit 1] else []),
         none) ∧
      (¬(Level.info = Level.error ∨ Level.info = Level.fatal) → extras = []) :=
  ⟨by decide, rfl,
    (levelFilter_output textSt siteHost [] 5 Level.info
      (JVal.prim (JPrim.jstr "hi")) [] none).2.1 (by decide) rfl⟩

/-- C9 (amended): process termination, when it occurs, is the last action
of a log call and is always preceded by the call's writes; non-fatal calls
never terminate; a fatal text-mode call that passes the filter writes its
lines and then exits; a fatal jsonl-mode call that passes the filter and
whose serialization does not throw writes exactly one record line and then
exits.  (When the serialization throws — see the C3 bug — the call
terminates neither the emission nor the process.) -/
theorem fatal_exit_order :
    ∀ (st : LoggerState) (host : Host) (h : Heap) (fuel : Nat) (level : Level)
      (message : JVal) (args : List JVal) (ctx : Option JsonCtx),
    (∀ e ∈ (logInternal st host h fuel level message args ctx).1.dropLast,
      e.isLine) ∧
    (level ≠ Level.fatal →
      ∀ e ∈ (logInternal st host h fuel level message args ctx).1, e.isLine) ∧
    (st.outputFormat = OutputFormat.text → level = Level.fatal →
      rank st.logLevel ≤ rank level →
      ∃ ws, (logInternal st host h fuel level message args ctx).1 =
          ws ++ [Event.exit 1] ∧ ws ≠ [] ∧ ∀ e ∈ ws, e.isLine) ∧
    (st.outputFormat = OutputFormat.jsonl → level = Level.fatal →
      rank st.logLevel ≤ rank level →
      (logInternal st host h fuel level message args ctx).2 = none →
      ∃ s, (logInternal st host h fuel level message args ctx).1 =
        [writeLine st Level.fatal s, Event.exit 1]) := by
  intro st host h fuel level message args ctx
  obtain ⟨ws, hws, hsh⟩ := logInternal_shape st host h fuel level message args ctx
  refine ⟨?_, ?_, ?_, ?_⟩
  · rcases hsh with hE | ⟨hE, _, _⟩
    · rw [hE]
      intro e he
      exact hws e ((List.dropLast_sublist ws).subset he)
    · rw [hE, List.dropLast_concat]
      exact hws
  · intro hnf
    rcases hsh with hE | ⟨_, hf, _⟩
    · rw [hE]; exact hws
    · exact absurd hf hnf
  · intro htext hf hle
    subst hf
    have hnl : ¬ rank Level.fatal < rank st.logLevel := Nat.not_lt.mpr hle
    refine ⟨writeLine st Level.fatal (prefixText st host Level.fatal ++
        formatValue st host h message ++ formatArgs st host h args) ::
        (((errRefsOf h message args).map
          (errorBlock st host h Level.fatal)).flatten ++
          nativeSection st host Level.fatal), ?_, by simp, ?_⟩
    · simp [logInternal, hnl, htext, List.append_assoc]
    · intro e he
      rcases List.mem_cons.mp he with rfl | he2
      · exact writeLine_isLine st Level.fatal _
      · rcases List.mem_append.mp he2 with hA | hB
        · rcases List.mem_flatten.mp hA with ⟨l, hl, hel⟩
          rcases List.mem_map.mp hl with ⟨r, _, rfl⟩
          exact errorBlock_isLine st host h Level.fatal r e hel
        · exact nativeSection_isLine st host Level.fatal e hB
  · intro hjson hf hle hnone
    subst hf
    have hnl : ¬ rank Level.fatal < rank st.logLevel := Nat.not_lt.mpr hle
    cases hs : stringifyJsonRecord h fuel
        (buildJsonRecordS st host h Level.fatal message args ctx).1
        (buildJsonRecordS st host h Level.fatal message args ctx).2 with
    | ok s => exact ⟨s, by simp [logInternal, hnl, hjson, hs]⟩
    | error e2 =>
      exfalso
      have : (logInternal st host h fuel Level.fatal message args ctx).2 =
          some e2 := by
        simp [logInternal, hnl, hjson, hs]
      rw [this] at hnone
      exact Option.noConfusion hnone

/-- C9 counterexample to the claim as stated: a fatal jsonl-mode call that
passes the level filter but whose record serialization throws performs no
emission and never reaches `process.exit` — the process is not
terminated. -/
theorem fatal_exit_counterexample :
    rank jsonSt.logLevel ≤ rank Level.fatal ∧
    logInternal jsonSt siteHost bugHeap 100 Level.fatal
      (JVal.prim (JPrim.jstr "m")) [JVal.vref 2] none =
      ([], some SErr.cyclic) := by
  constructor
  · decide
  · decide

/-- C9 witness: the text-mode fatal conjunct at a concrete call. -/
theorem fatal_exit_order_witness :
    textSt.outputFormat = OutputFormat.text ∧
    rank textSt.logLevel ≤ rank Level.fatal ∧
    ∃ ws, (logInternal textSt siteHost [] 5 Level.fatal
        (JVal.prim (JPrim.jstr "bye")) [] none).1 = ws ++ [Event.exit 1] ∧
      ws ≠ [] ∧ ∀ e ∈ ws, e.isLine :=
  ⟨rfl, by decide,
    (fatal_exit_order textSt siteHost [] 5 Level.fatal
      (JVal.prim (JPrim.jstr "bye")) [] none).2.2.1 rfl rfl (by decide)⟩

/-- C10: for every `error`/`fatal` text-mode call passing the filter, the
written lines end with the native-stack section — a prefixed
`Stack trace:` header followed by one prefixed line per frame whenever the
captured native stack is non-empty — regardless of whether any logged
value is error-like; and in jsonl mode the `nativeStack` key is present
for every `error`/`fatal` record, including a concrete record without any
`errors` key. -/
theorem nativeStack_always :
    ∀ (st : LoggerState) (host : Host) (h : Heap) (fuel : Nat) (level : Level)
      (message : JVal) (args : List JVal) (ctx : Option JsonCtx),
    ((level = Level.error ∨ level = Level.fatal) →
      st.outputFormat = OutputFormat.text → rank st.logLevel ≤ rank level →
      ∃ pre, (logInternal st host h fuel level message args ctx).1 =
          pre ++ nativeSection st host level ++
            (if level = Level.fatal then [Event.exit 1] else []) ∧
        (captureNativeStack host.stack ≠ "" →
          nativeSection st host level =
            writeLine st level (prefixText st host level ++ "  Stack trace:") ::
              stackLines st host level (captureNativeStack host.stack) "  ")) ∧
    ((level = Level.error ∨ level = Level.fatal) →
      "nativeStack" ∈ recordKeys st host h level message args ctx) ∧
    "errors" ∉ recordKeys jsonSt siteHost [] Level.error
      (JVal.prim (JPrim.jstr "m")) [] none ∧
    "nativeStack" ∈ recordKeys jsonSt siteHost [] Level.error
      (JVal.prim (JPrim.jstr "m")) [] none := by
  intro st host h fuel level message args ctx
  refine ⟨?_, ?_, by decide, by decide⟩
  · intro hef htext hle
    have hnl : ¬ rank level < rank st.logLevel := Nat.not_lt.mpr hle
    refine ⟨writeLine st level (prefixText st host level ++
        formatValue st host h message ++ formatArgs st host h args) ::
        ((errRefsOf h message args).map (errorBlock st host h level)).flatten,
      ?_, ?_⟩
    · simp [logInternal, hnl, htext, hef, List.append_assoc]
    · intro hns
      simp only [nativeSection]
      rw [if_neg hns]
  · intro hef
    rw [recordKeys_eq]
    simp [hef]

/-- C10 witness: the text-mode conjunct at an `error` call with no
error-like values at all. -/
theorem nativeStack_always_witness :
    (Level.error = Level.error ∨ Level.error = Level.fatal) ∧
    textSt.outputFormat = OutputFormat.text ∧
    rank textSt.logLevel ≤ rank Level.error ∧
    ∃ pre, (logInternal textSt siteHost [] 5 Level.error
        (JVal.prim (JPrim.jstr "oops")) [] none).1 =
        pre ++ nativeSection textSt siteHost Level.error ++
          (if Level.error = Level.fatal then [Event.exit 1] else []) ∧
      (captureNativeStack siteHost.stack ≠ "" →
        nativeSection textSt siteHost Level.error =
          writeLine textSt Level.error
              (prefixText textSt siteHost Level.error ++ "  Stack trace:") ::
            stackLines textSt siteHost Level.error
              (captureNativeStack siteHost.stack) "  ") :=
  ⟨Or.inl rfl, rfl, by decide,
    (nativeStack_always textSt siteHost [] 5 Level.error
      (JVal.prim (JPrim.jstr "oops")) [] none).1 (Or.inl rfl) rfl (by decide)⟩

set_option maxRecDepth 16384 in
/-- C3 (code bug): evaluated on the failing input — a cyclic object whose
first key holds an error with a non-empty cause chain and whose second key
closes the cycle — the serializer throws (the substituted error record is
never pushed onto the replacer's `ancestors` array, so walking its
`causes` array empties the ancestors chain, the later back-edge escapes
the `"[Circular]"` guard, and the engine's own cycle check raises a
`TypeError`); hence the cycle is neither replaced by the marker nor
serialized without failure.  The claim's sibling half does hold: the same
object passed twice as sibling arguments serializes to its full content
twice with no marker, and a plain cyclic object (no errors involved) is
replaced by exactly one `"[Circular]"` marker without throwing. -/
theorem stringify_circular_bug :
    stringifyJsonRecord bugHeap 100
      (buildJsonRecordS jsonSt siteHost bugHeap Level.error
        (JVal.prim (JPrim.jstr "m")) [JVal.vref 2] none).1
      (buildJsonRecordS jsonSt siteHost bugHeap Level.error
        (JVal.prim (JPrim.jstr "m")) [JVal.vref 2] none).2 =
      Except.error SErr.cyclic ∧
    (stringifyJsonRecord sibHeap 100
      (buildJsonRecordS jsonSt siteHost sibHeap Level.info
        (JVal.prim (JPrim.jstr "x")) [JVal.vref 0, JVal.vref 0] none).1
      (buildJsonRecordS jsonSt siteHost sibHeap Level.info
        (JVal.prim (JPrim.jstr "x")) [JVal.vref 0, JVal.vref 0] none).2).map
      (countOccs "traceId") = Except.ok 2 ∧
    (stringifyJsonRecord sibHeap 100
      (buildJsonRecordS jsonSt siteHost sibHeap Level.info
        (JVal.prim (JPrim.jstr "x")) [JVal.vref 0, JVal.vref 0] none).1
      (buildJsonRecordS jsonSt siteHost sibHeap Level.info
        (JVal.prim (JPrim.jstr "x")) [JVal.vref 0, JVal.vref 0] none).2).map
      (countOccs "[Circular]") = Except.ok 0 ∧
    (stringifyJsonRecord cycHeap 100
      (buildJsonRecordS jsonSt siteHost cycHeap Level.info
        (JVal.prim (JPrim.jstr "x")) [JVal.vref 0] none).1
      (buildJsonRecordS jsonSt siteHost cycHeap Level.info
        (JVal.prim (JPrim.jstr "x")) [JVal.vref 0] none).2).map
      (countOccs "[Circular]") = Except.ok 1 := by
  refine ⟨by decide, by decide, by decide, by decide⟩

/-- C4 witness: the record built at `error` level over the sibling heap
ends in the captured native stack of the call site. -/
theorem nativeStack_capture_witness :
    (Level.error = Level.error ∨ Level.error = Level.fatal) ∧
    ∃ pre, (buildJsonRecordS jsonSt siteHost sibHeap Level.error
        (JVal.prim (JPrim.jstr "m")) [JVal.vref 0] none).1 =
        pre ++ [("nativeStack",
          SVal.prim (JPrim.jstr
            (String.intercalate "\n" ((splitLines siteHost.stack).drop 1))))] ∧
      "nativeStack" ∉ pre.map Prod.fst :=
  ⟨Or.inl rfl,
   nativeStack_capture jsonSt siteHost sibHeap Level.error
     (JVal.prim (JPrim.jstr "m")) [JVal.vref 0] none (Or.inl rfl)⟩

end SML
